import Mathlib

/-!
# git-protocol-v2: verification of the message codec

Shallow embedding of the `protocolv2` Go package (bored-engineer/git-protocol-v2):
the section-based message encoder/decoder for the Git wire protocol version 2,
including the fetch-response state machine and its side-band demultiplexer.

Go byte slices and strings are embedded as `List Nat` (one `Nat` per byte).
The pkt-line framing primitive (`github.com/bored-engineer/git-pkt-line`) is an
external collaborator of the package; its wire format and scanner contract are
modelled from the specification (4 hex-digit length including the header itself,
`0000` = flush, `0001` = delimiter, scan surfacing flush/delimiter as
distinguished sentinel errors).  The Go scanner is embedded as a list of framed
events (`Pkt`) consumed head-first; stateful parsers become explicit
state-passing functions returning the populated value, the error (the section
parsers of this package only ever exit through an error, faithfully mirrored by
a non-optional `Err`), and the remaining events.
-/

set_option maxRecDepth 10000

/-- ASCII bytes of a Lean string literal (all literals used are ASCII). -/
def str (s : String) : List Nat :=
  s.data.map Char.toNat

/-- Embeds `bytes.Cut(l, [sep])` for a one-byte separator: the bytes before the
first occurrence of `sep`, the bytes after it, and whether it was found. -/
def cut (sep : Nat) : List Nat → List Nat × List Nat × Bool
  | [] => ([], [], false)
  | b :: rest =>
    if b = sep then ([], rest, true)
    else
      let r := cut sep rest
      (b :: r.1, r.2.1, r.2.2)

/-- Embeds `bytes.CutPrefix(l, p)`: the remainder after the leading `p`,
or `none` when `l` does not start with `p`. -/
def cutStart (p l : List Nat) : Option (List Nat) :=
  if p.isPrefixOf l then some (l.drop p.length) else none

/-- Embeds `bytes.CutSuffix(l, s)`: the remainder before the trailing `s`,
or `none` when `l` does not end with `s`. -/
def cutEnd (s l : List Nat) : Option (List Nat) :=
  if s.isSuffixOf l then some (l.take (l.length - s.length)) else none

/-- One framed unit as delivered by the pkt-line scanner: a content line,
the flush marker, or the delimiter marker. -/
inductive Pkt where
  | data (line : List Nat)
  | flush
  | delim
deriving DecidableEq

/-- The Go `error` values observable from the package: the two section-boundary
sentinels of the framing primitive, end of input, and each `fmt.Errorf` site of
the package (carrying the offending raw bytes, as the Go messages do). -/
inductive Err where
  | flushPkt
  | delimPkt
  | eof
  | invalidCapability (line : List Nat)
  | invalidArgument (line : List Nat)
  | invalidVersion (line : List Nat)
  | invalidCommand (line : List Nat)
  | invalidAck (line : List Nat)
  | invalidShallow (line : List Nat)
  | invalidUnshallow (line : List Nat)
  | invalidShallowInfo (line : List Nat)
  | invalidWantedRef (line : List Nat)
  | invalidPackfileURI (line : List Nat)
  | invalidRef (line : List Nat)
  | unsupportedPktLine (line : List Nat)
  | fatal (data : List Nat)
  | invalidSideband (line : List Nat)
deriving DecidableEq

/-- Decidable equality of fallible results, for concrete evaluations. -/
instance {ε α : Type} [DecidableEq ε] [DecidableEq α] : DecidableEq (Except ε α) := fun x y =>
  match x, y with
  | .error e₁, .error e₂ =>
    if h : e₁ = e₂ then .isTrue (h ▸ rfl) else .isFalse (fun hh => h (Except.error.inj hh))
  | .error _, .ok _ => .isFalse (fun hh => Except.noConfusion hh)
  | .ok _, .error _ => .isFalse (fun hh => Except.noConfusion hh)
  | .ok a₁, .ok a₂ =>
    if h : a₁ = a₂ then .isTrue (h ▸ rfl) else .isFalse (fun hh => h (Except.ok.inj hh))

/-- Modelled from the spec: a hex digit of the pkt-line length header
(lowercase, as in the documented literal advertisement bytes). -/
def hexDig (n : Nat) : Nat :=
  if n < 10 then 48 + n else 87 + n

/-- Modelled from the spec: the 4 hex-digit length header of a framed unit. -/
def hex4 (n : Nat) : List Nat :=
  [hexDig (n / 4096 % 16), hexDig (n / 256 % 16), hexDig (n / 16 % 16), hexDig (n % 16)]

/-- Modelled from the spec: `pktline.AppendLength(b, n)` — append the 4
hex-digit header for a unit of `n` payload bytes ("4 hex-digit length
(including the 4-digit header itself) + payload bytes"). -/
def AppendLength (b : List Nat) (n : Nat) : List Nat :=
  b ++ hex4 (n + 4)

/-- Modelled from the spec: `pktline.AppendString(b, s)` — one framed unit
carrying the payload `s`. -/
def AppendString (b s : List Nat) : List Nat :=
  AppendLength b s.length ++ s

/-- Modelled from the spec: `pktline.AppendFlushPkt` — the reserved flush
marker `0000` ending a message. -/
def AppendFlushPkt (b : List Nat) : List Nat :=
  b ++ str "0000"

/-- Modelled from the spec: `pktline.AppendDelimPkt` — the reserved delimiter
marker `0001` ending a sub-section. -/
def AppendDelimPkt (b : List Nat) : List Nat :=
  b ++ str "0001"

/-- Modelled from the spec: `pktline.SideBand(line)` — the leading payload
byte selects the channel, the remaining bytes are the unit's data. -/
def SideBand : List Nat → Nat × List Nat
  | [] => (0, [])
  | b :: rest => (b, rest)

/-- Render one framed event back to wire bytes. -/
def renderPkt : Pkt → List Nat
  | .data l => hex4 (l.length + 4) ++ l
  | .flush => str "0000"
  | .delim => str "0001"

/-- Render a sequence of framed events to wire bytes. -/
def renderPkts (ts : List Pkt) : List Nat :=
  (ts.map renderPkt).flatten

/-- Modelled from the spec: the value of one hex-digit byte, or `none`. -/
def fromHexDig (b : Nat) : Option Nat :=
  if 48 ≤ b ∧ b ≤ 57 then some (b - 48)
  else if 97 ≤ b ∧ b ≤ 102 then some (b - 87)
  else none

/-- Modelled from the spec: read one framed unit off the head of the byte
stream: 4 hex-digit length, `0` ⇒ flush, `1` ⇒ delimiter, otherwise
`length - 4` payload bytes. -/
def readPkt : List Nat → Option (Pkt × List Nat)
  | a :: b :: c :: d :: rest =>
    match fromHexDig a, fromHexDig b, fromHexDig c, fromHexDig d with
    | some a, some b, some c, some d =>
      let n := a * 4096 + b * 256 + c * 16 + d
      if n = 0 then some (.flush, rest)
      else if n = 1 then some (.delim, rest)
      else if n < 4 then none
      else if n - 4 ≤ rest.length then some (.data (rest.take (n - 4)), rest.drop (n - 4))
      else none
    | _, _, _, _ => none
  | _ => none

/-- Modelled from the spec: scan all framed units of a byte stream
(fuel-indexed helper; each unit consumes at least four bytes). -/
def scanPktsAux : Nat → List Nat → Option (List Pkt)
  | _, [] => some []
  | 0, _ :: _ => none
  | fuel + 1, b =>
    match readPkt b with
    | none => none
    | some (p, rest) =>
      match scanPktsAux fuel rest with
      | none => none
      | some ps => some (p :: ps)

/-- Modelled from the spec: the framed units of a complete byte stream. -/
def scanPkts (b : List Nat) : Option (List Pkt) :=
  scanPktsAux b.length b

/-- Grammar `capability = PKT-LINE(key[=value] LF)` (src/unnamed/part_000). -/
structure Capability where
  Key : List Nat
  Value : List Nat
deriving DecidableEq

/-- The payload line of one capability: `key\n` or `key=value\n`. -/
def Capability.line (c : Capability) : List Nat :=
  if 0 < c.Value.length then c.Key ++ [61] ++ c.Value ++ [10]
  else c.Key ++ [10]

/-- Embeds `Capability.Append`: one framed unit carrying `key[=value]` LF. -/
def Capability.Append (c : Capability) (b : List Nat) : List Nat :=
  if 0 < c.Value.length then
    AppendLength b (c.Key.length + 1 + c.Value.length + 1) ++ c.Key ++ [61] ++ c.Value ++ [10]
  else
    AppendLength b (c.Key.length + 1) ++ c.Key ++ [10]

/-- Embeds `Capability.Bytes`. -/
def Capability.Bytes (c : Capability) : List Nat :=
  c.Append []

/-- Embeds `Capability.Parse`: strip the trailing LF, split at the first `=`;
an empty key, or a separator with an empty value, is malformed. -/
def Capability.Parse (line : List Nat) : Except Err Capability :=
  match cutEnd (str "\n") line with
  | none => .error (.invalidCapability line)
  | some remaining =>
    let r := cut 61 remaining
    if r.1.length = 0 then .error (.invalidCapability line)
    else if r.2.2 then
      if r.2.1.length = 0 then .error (.invalidCapability line)
      else .ok ⟨r.1, r.2.1⟩
    else .ok ⟨r.1, []⟩

/-- Grammar `capability-list = *capability` (src/unnamed/part_000). -/
abbrev Capabilities := List Capability

/-- Embeds `Capabilities.Append`: each capability's framed unit in order. -/
def Capabilities.Append (cs : Capabilities) (b : List Nat) : List Nat :=
  match cs with
  | [] => b
  | c :: rest => Capabilities.Append rest (c.Append b)

/-- Embeds `Capabilities.Parse`: scan and decode one capability per unit until
the scanner reports an error (a section terminator ends every well-formed
list); the accumulated list, the error, and the remaining events. -/
def Capabilities.Parse (cs : Capabilities) : List Pkt → Capabilities × Err × List Pkt
  | [] => (cs, .eof, [])
  | .flush :: rest => (cs, .flushPkt, rest)
  | .delim :: rest => (cs, .delimPkt, rest)
  | .data line :: rest =>
    match Capability.Parse line with
    | .error e => (cs, e, rest)
    | .ok c => Capabilities.Parse (cs ++ [c]) rest

/-- Embeds `Capabilities.Get`: linear scan, first match wins. -/
def Capabilities.Get (cs : Capabilities) (key : List Nat) : List Nat × Bool :=
  match cs with
  | [] => ([], false)
  | c :: rest => if c.Key = key then (c.Value, true) else Capabilities.Get rest key

/-- Embeds `Capabilities.Has`. -/
def Capabilities.Has (cs : Capabilities) (key : List Nat) : Bool :=
  match cs with
  | [] => false
  | c :: rest => if c.Key = key then true else Capabilities.Has rest key

/-- Grammar `command-specific-args` pair (src/arguments.go). -/
structure CommandArgument where
  Key : List Nat
  Value : List Nat
deriving DecidableEq

/-- The payload line of one argument: `key` or `key value` (no trailing LF). -/
def CommandArgument.line (ca : CommandArgument) : List Nat :=
  if ca.Value.length = 0 then ca.Key else ca.Key ++ [32] ++ ca.Value

/-- Embeds `CommandArgument.Append`: one framed unit, no trailing LF. -/
def CommandArgument.Append (ca : CommandArgument) (b : List Nat) : List Nat :=
  if ca.Value.length = 0 then AppendString b ca.Key
  else AppendString b (ca.Key ++ [32] ++ ca.Value)

/-- Embeds `CommandArgument.Bytes`. -/
def CommandArgument.Bytes (ca : CommandArgument) : List Nat :=
  ca.Append []

/-- Embeds `CommandArgument.Parse`: split at the first space; an empty key,
or a separator with an empty value, is malformed. -/
def CommandArgument.Parse (line : List Nat) : Except Err CommandArgument :=
  let r := cut 32 line
  if r.1.length = 0 then .error (.invalidArgument line)
  else if r.2.2 then
    if r.2.1.length = 0 then .error (.invalidArgument line)
    else .ok ⟨r.1, r.2.1⟩
  else .ok ⟨r.1, []⟩

/-- Grammar `command-args = *command-specific-arg` (src/arguments.go). -/
abbrev CommandArguments := List CommandArgument

/-- Embeds `CommandArguments.Append`. -/
def CommandArguments.Append (cas : CommandArguments) (b : List Nat) : List Nat :=
  match cas with
  | [] => b
  | a :: rest => CommandArguments.Append rest (a.Append b)

/-- Embeds `CommandArguments.Parse`: one argument per unit until the scanner
reports an error. -/
def CommandArguments.Parse (cas : CommandArguments) :
    List Pkt → CommandArguments × Err × List Pkt
  | [] => (cas, .eof, [])
  | .flush :: rest => (cas, .flushPkt, rest)
  | .delim :: rest => (cas, .delimPkt, rest)
  | .data line :: rest =>
    match CommandArgument.Parse line with
    | .error e => (cas, e, rest)
    | .ok a => CommandArguments.Parse (cas ++ [a]) rest

/-- Grammar `ref = PKT-LINE(obj-id-or-unborn SP refname *(SP ref-attribute) LF)`
(src/unnamed/part_001). -/
structure Reference where
  ObjectID : List Nat
  Name : List Nat
  Attributes : List (List Nat)
deriving DecidableEq

/-- The payload line of one reference. -/
def Reference.line (r : Reference) : List Nat :=
  r.ObjectID ++ [32] ++ r.Name ++ (r.Attributes.map (fun a => 32 :: a)).flatten ++ [10]

/-- Embeds `Reference.Append`. -/
def Reference.Append (r : Reference) (b : List Nat) : List Nat :=
  AppendLength b (r.ObjectID.length + 1 + r.Name.length +
      ((r.Attributes.map (fun a => 1 + a.length)).sum) + 1) ++
    r.ObjectID ++ [32] ++ r.Name ++ (r.Attributes.map (fun a => 32 :: a)).flatten ++ [10]

/-- Embeds `Reference.Bytes`. -/
def Reference.Bytes (r : Reference) : List Nat :=
  r.Append []

/-- The attribute loop of `Reference.Parse`: `for ok { attr, remaining, ok =
bytes.Cut(remaining, " "); r.Attributes = append(r.Attributes, attr) }`. -/
def Reference.parseAttrs (acc : List (List Nat)) (remaining : List Nat) (ok : Bool) :
    List (List Nat) :=
  if _h : ok then
    let r := cut 32 remaining
    Reference.parseAttrs (acc ++ [r.1]) r.2.1 r.2.2
  else acc
termination_by remaining.length + (if ok then 1 else 0)
decreasing_by
  have aux : ∀ l : List Nat,
      (cut 32 l).2.1.length + (if (cut 32 l).2.2 then 1 else 0) ≤ l.length := by
    intro l
    induction l with
    | nil => simp [cut]
    | cons b rest ih =>
      by_cases hb : b = 32
      · simp [cut, hb]
      · by_cases hok : (cut 32 rest).2.2 <;> simp [cut, hb, hok] at ih ⊢ <;> omega
  have := aux remaining
  by_cases hok : (cut 32 remaining).2.2 <;> simp [_h, hok] at this ⊢ <;> omega

/-- Embeds `Reference.Parse`: strip LF, cut the object id at the first space
(malformed when absent), cut the name at the next space, then one attribute
per further space. -/
def Reference.Parse (line : List Nat) : Except Err Reference :=
  match cutEnd (str "\n") line with
  | none => .error (.invalidRef line)
  | some remaining =>
    let r1 := cut 32 remaining
    if r1.2.2 then
      let r2 := cut 32 r1.2.1
      .ok ⟨r1.1, r2.1, Reference.parseAttrs [] r2.2.1 r2.2.2⟩
    else .error (.invalidRef line)

/-- Grammar `ls-refs` response (src/unnamed/part_001). -/
structure ListReferencesResponse where
  References : List Reference
deriving DecidableEq

/-- Embeds `ListReferencesResponse.Append`: each reference, then flush. -/
def ListReferencesResponse.Append (lrs : ListReferencesResponse) (b : List Nat) : List Nat :=
  AppendFlushPkt (lrs.References.foldl (fun acc r => r.Append acc) b)

/-- Embeds `ListReferencesResponse.Parse`: one reference per unit; flush ends
the message with success (`nil` error), any other scan error propagates. -/
def ListReferencesResponse.Parse (lrs : ListReferencesResponse) :
    List Pkt → ListReferencesResponse × Option Err × List Pkt
  | [] => (lrs, some .eof, [])
  | .flush :: rest => (lrs, none, rest)
  | .delim :: rest => (lrs, some .delimPkt, rest)
  | .data line :: rest =>
    match Reference.Parse line with
    | .error e => (lrs, some e, rest)
    | .ok r => ListReferencesResponse.Parse ⟨lrs.References ++ [r]⟩ rest

/-- Grammar `capability-advertisement = protocol-version capability-list flush-pkt`
(src/capability-advertisement.go). -/
structure CapabilityAdvertisement where
  Capabilities : Capabilities
deriving DecidableEq

/-- Embeds `CapabilityAdvertisement.Append`: version line, capability list,
flush. -/
def CapabilityAdvertisement.Append (ca : CapabilityAdvertisement) (b : List Nat) : List Nat :=
  AppendFlushPkt (Capabilities.Append ca.Capabilities (AppendString b (str "version 2\n")))

/-- Embeds `CapabilityAdvertisement.Bytes`. -/
def CapabilityAdvertisement.Bytes (ca : CapabilityAdvertisement) : List Nat :=
  ca.Append []

/-- Embeds `CapabilityAdvertisement.Parse`: the first line must equal
`version 2\n` byte-for-byte; then the capability list, tolerating (only) the
flush sentinel as success. -/
def CapabilityAdvertisement.Parse (ca : CapabilityAdvertisement) :
    List Pkt → CapabilityAdvertisement × Option Err × List Pkt
  | [] => (ca, some .eof, [])
  | .flush :: rest => (ca, some .flushPkt, rest)
  | .delim :: rest => (ca, some .delimPkt, rest)
  | .data version :: rest =>
    if version = str "version 2\n" then
      let r := Capabilities.Parse ca.Capabilities rest
      if r.2.1 = .flushPkt then (⟨r.1⟩, none, r.2.2)
      else (⟨r.1⟩, some r.2.1, r.2.2)
    else (ca, some (.invalidVersion version), rest)

/-- Grammar `command-request` (src/capability-advertisement_test.go companion file). -/
structure CommandRequest where
  Command : List Nat
  Capabilities : Capabilities
  Arguments : CommandArguments
deriving DecidableEq

/-- Embeds `CommandRequest.Append`: `command=<name>` line, capability list,
delimiter, argument list, flush. -/
def CommandRequest.Append (cr : CommandRequest) (b : List Nat) : List Nat :=
  AppendFlushPkt (CommandArguments.Append cr.Arguments
    (AppendDelimPkt (Capabilities.Append cr.Capabilities
      (AppendString b (str "command=" ++ cr.Command ++ str "\n")))))

/-- Embeds `CommandRequest.Bytes`. -/
def CommandRequest.Bytes (cr : CommandRequest) : List Nat :=
  cr.Append []

/-- Embeds `CommandRequest.Parse`: first line must be LF-terminated with the
`command=` marker; then the capability list tolerating the delimiter sentinel,
then the argument list tolerating the flush sentinel. -/
def CommandRequest.Parse (cr : CommandRequest) :
    List Pkt → CommandRequest × Option Err × List Pkt
  | [] => (cr, some .eof, [])
  | .flush :: rest => (cr, some .flushPkt, rest)
  | .delim :: rest => (cr, some .delimPkt, rest)
  | .data line :: rest =>
    match cutEnd (str "\n") line with
    | none => (cr, some (.invalidCommand line), rest)
    | some remaining =>
      match cutStart (str "command=") remaining with
      | none => (cr, some (.invalidCommand line), rest)
      | some command =>
        let r := Capabilities.Parse cr.Capabilities rest
        if r.2.1 = .delimPkt then
          let r2 := CommandArguments.Parse cr.Arguments r.2.2
          if r2.2.1 = .flushPkt then (⟨command, r.1, r2.1⟩, none, r2.2.2)
          else (⟨command, r.1, r2.1⟩, some r2.2.1, r2.2.2)
        else (⟨command, r.1, cr.Arguments⟩, some r.2.1, r.2.2)

/-- Grammar `acknowledgments` section value (src/capability-advertisement.go). -/
structure Acknowledgements where
  Ready : Bool
  NAK : Bool
  ACKs : List (List Nat)
deriving DecidableEq

/-- Embeds `Acknowledgements.IsZero`. -/
def Acknowledgements.IsZero (a : Acknowledgements) : Bool :=
  !a.Ready && !a.NAK && a.ACKs.isEmpty

/-- Embeds `Acknowledgements.Append`: section header, then `ready`, `NAK`,
and each `ACK <obj-id>` line. -/
def Acknowledgements.Append (a : Acknowledgements) (b : List Nat) : List Nat :=
  let b := AppendString b (str "acknowledgments\n")
  let b := if a.Ready then AppendString b (str "ready\n") else b
  let b := if a.NAK then AppendString b (str "NAK\n") else b
  a.ACKs.foldl (fun acc objID =>
    AppendLength acc (4 + objID.length + 1) ++ str "ACK " ++ objID ++ [10]) b

/-- Embeds `Acknowledgements.Bytes`. -/
def Acknowledgements.Bytes (a : Acknowledgements) : List Nat :=
  a.Append []

/-- Embeds `Acknowledgements.Parse`: accumulate `ACK `-, `NAK`- and
`ready`-lines (anything else is skipped) until the scanner reports an error. -/
def Acknowledgements.Parse (a : Acknowledgements) :
    List Pkt → Acknowledgements × Err × List Pkt
  | [] => (a, .eof, [])
  | .flush :: rest => (a, .flushPkt, rest)
  | .delim :: rest => (a, .delimPkt, rest)
  | .data line :: rest =>
    match cutStart (str "ACK ") line with
    | some objID =>
      match cutEnd (str "\n") objID with
      | none => (a, .invalidAck line, rest)
      | some objID => Acknowledgements.Parse { a with ACKs := a.ACKs ++ [objID] } rest
    | none =>
      if line = str "NAK\n" then Acknowledgements.Parse { a with NAK := true } rest
      else if line = str "ready\n" then Acknowledgements.Parse { a with Ready := true } rest
      else Acknowledgements.Parse a rest

/-- Grammar `shallow = "shallow" SP obj-id` (src/capability-advertisement.go). -/
structure Shallow where
  ObjectID : List Nat
deriving DecidableEq

/-- Embeds `Shallow.Append`. -/
def Shallow.Append (s : Shallow) (b : List Nat) : List Nat :=
  AppendLength b (8 + s.ObjectID.length + 1) ++ str "shallow " ++ s.ObjectID ++ [10]

/-- Embeds `Shallow.Parse`: strip LF, strip the `shallow ` marker. -/
def Shallow.Parse (line : List Nat) : Except Err Shallow :=
  match cutEnd (str "\n") line with
  | none => .error (.invalidShallow line)
  | some remaining =>
    match cutStart (str "shallow ") remaining with
    | none => .error (.invalidShallow line)
    | some objID => .ok ⟨objID⟩

/-- Grammar `unshallow = "unshallow" SP obj-id` (src/capability-advertisement.go). -/
structure Unshallow where
  ObjectID : List Nat
deriving DecidableEq

/-- Embeds `Unshallow.Append`. -/
def Unshallow.Append (u : Unshallow) (b : List Nat) : List Nat :=
  AppendLength b (10 + u.ObjectID.length + 1) ++ str "unshallow " ++ u.ObjectID ++ [10]

/-- Embeds `Unshallow.Parse`. -/
def Unshallow.Parse (line : List Nat) : Except Err Unshallow :=
  match cutEnd (str "\n") line with
  | none => .error (.invalidUnshallow line)
  | some remaining =>
    match cutStart (str "unshallow ") remaining with
    | none => .error (.invalidUnshallow line)
    | some objID => .ok ⟨objID⟩

/-- Grammar `shallow-info` section value (src/capability-advertisement.go). -/
structure ShallowInfo where
  Shallow : List Shallow
  Unshallow : List Unshallow
deriving DecidableEq

/-- Embeds `ShallowInfo.IsZero`. -/
def ShallowInfo.IsZero (si : ShallowInfo) : Bool :=
  si.Shallow.isEmpty && si.Unshallow.isEmpty

/-- Embeds `ShallowInfo.Append`: header, each shallow, each unshallow. -/
def ShallowInfo.Append (si : ShallowInfo) (b : List Nat) : List Nat :=
  let b := AppendString b (str "shallow-info\n")
  let b := si.Shallow.foldl (fun acc s => s.Append acc) b
  si.Unshallow.foldl (fun acc u => u.Append acc) b

/-- Embeds `ShallowInfo.Parse`: lines with the `shallow ` marker feed
`Shallow.Parse`, lines with the `unshallow ` marker feed `Unshallow.Parse`,
any other line is malformed; the loop ends on a scanner error. -/
def ShallowInfo.Parse (si : ShallowInfo) : List Pkt → ShallowInfo × Err × List Pkt
  | [] => (si, .eof, [])
  | .flush :: rest => (si, .flushPkt, rest)
  | .delim :: rest => (si, .delimPkt, rest)
  | .data line :: rest =>
    if (str "shallow ").isPrefixOf line then
      match Shallow.Parse line with
      | .error e => (si, e, rest)
      | .ok s => ShallowInfo.Parse { si with Shallow := si.Shallow ++ [s] } rest
    else if (str "unshallow ").isPrefixOf line then
      match Unshallow.Parse line with
      | .error e => (si, e, rest)
      | .ok u => ShallowInfo.Parse { si with Unshallow := si.Unshallow ++ [u] } rest
    else (si, .invalidShallowInfo line, rest)

/-- Grammar `wanted-ref = obj-id SP refname LF` (src/capability-advertisement.go). -/
structure WantedRef where
  ObjectID : List Nat
  Name : List Nat
deriving DecidableEq

/-- Embeds `WantedRef.Append`. -/
def WantedRef.Append (wr : WantedRef) (b : List Nat) : List Nat :=
  AppendLength b (wr.ObjectID.length + 1 + wr.Name.length + 1) ++
    wr.ObjectID ++ [32] ++ wr.Name ++ [10]

/-- Embeds `WantedRef.Parse`: strip LF, cut object id and name at the first
space (malformed when no space). -/
def WantedRef.Parse (line : List Nat) : Except Err WantedRef :=
  match cutEnd (str "\n") line with
  | none => .error (.invalidWantedRef line)
  | some remaining =>
    let r := cut 32 remaining
    if r.2.2 then .ok ⟨r.1, r.2.1⟩
    else .error (.invalidWantedRef line)

/-- Grammar `wanted-refs` section value (src/capability-advertisement.go). -/
abbrev WantedRefs := List WantedRef

/-- Embeds `WantedRefs.IsZero`. -/
def WantedRefs.IsZero (wrs : WantedRefs) : Bool :=
  wrs.isEmpty

/-- Embeds `WantedRefs.Append`: header, then each wanted-ref. -/
def WantedRefs.Append (wrs : WantedRefs) (b : List Nat) : List Nat :=
  wrs.foldl (fun acc wr => wr.Append acc) (AppendString b (str "wanted-refs\n"))

/-- Embeds `WantedRefs.Parse`: one wanted-ref per unit until a scanner error. -/
def WantedRefs.Parse (wrs : WantedRefs) : List Pkt → WantedRefs × Err × List Pkt
  | [] => (wrs, .eof, [])
  | .flush :: rest => (wrs, .flushPkt, rest)
  | .delim :: rest => (wrs, .delimPkt, rest)
  | .data line :: rest =>
    match WantedRef.Parse line with
    | .error e => (wrs, e, rest)
    | .ok wr => WantedRefs.Parse (wrs ++ [wr]) rest

/-- Grammar `packfile-uri` line value (src/capability-advertisement.go). -/
structure PackfileURI where
  Checksum : List Nat
  URI : List Nat
deriving DecidableEq

/-- Embeds `PackfileURI.Append`. -/
def PackfileURI.Append (pu : PackfileURI) (b : List Nat) : List Nat :=
  AppendLength b (pu.Checksum.length + 1 + pu.URI.length + 1) ++
    pu.Checksum ++ [32] ++ pu.URI ++ [10]

/-- Embeds `PackfileURI.Parse`. -/
def PackfileURI.Parse (line : List Nat) : Except Err PackfileURI :=
  match cutEnd (str "\n") line with
  | none => .error (.invalidPackfileURI line)
  | some remaining =>
    let r := cut 32 remaining
    if r.2.2 then .ok ⟨r.1, r.2.1⟩
    else .error (.invalidPackfileURI line)

/-- Grammar `packfile-uris` section value (src/capability-advertisement.go). -/
abbrev PackfileURIs := List PackfileURI

/-- Embeds `PackfileURIs.IsZero`. -/
def PackfileURIs.IsZero (pus : PackfileURIs) : Bool :=
  pus.isEmpty

/-- Embeds `PackfileURIs.Append`: header, then each packfile-uri. -/
def PackfileURIs.Append (pus : PackfileURIs) (b : List Nat) : List Nat :=
  pus.foldl (fun acc pu => pu.Append acc) (AppendString b (str "packfile-uris\n"))

/-- Embeds `PackfileURIs.Parse`: one packfile-uri per unit until a scanner
error. -/
def PackfileURIs.Parse (pus : PackfileURIs) : List Pkt → PackfileURIs × Err × List Pkt
  | [] => (pus, .eof, [])
  | .flush :: rest => (pus, .flushPkt, rest)
  | .delim :: rest => (pus, .delimPkt, rest)
  | .data line :: rest =>
    match PackfileURI.Parse line with
    | .error e => (pus, e, rest)
    | .ok pu => PackfileURIs.Parse (pus ++ [pu]) rest

/-- Fetch response value (src/capability-advertisement.go). -/
structure FetchResponse where
  Acknowledgements : Acknowledgements
  ShallowInfo : ShallowInfo
  WantedRefs : WantedRefs
  PackfileURIs : PackfileURIs
deriving DecidableEq

/-- Embeds `FetchResponse.Append`: the acknowledgements section when non-zero
(ending the message with a flush right away when it contains NAK, else a
delimiter), then each non-zero optional section, then the `packfile` header. -/
def FetchResponse.Append (fr : FetchResponse) (b : List Nat) : List Nat :=
  let b :=
    if !fr.Acknowledgements.IsZero then
      let b := fr.Acknowledgements.Append b
      if fr.Acknowledgements.NAK then AppendFlushPkt b
      else AppendDelimPkt b
    else b
  if !fr.Acknowledgements.IsZero && fr.Acknowledgements.NAK then b
  else
    let b := if !fr.ShallowInfo.IsZero then fr.ShallowInfo.Append b else b
    let b := if !(WantedRefs.IsZero fr.WantedRefs) then WantedRefs.Append fr.WantedRefs b else b
    let b := if !(PackfileURIs.IsZero fr.PackfileURIs) then
        PackfileURIs.Append fr.PackfileURIs b else b
    AppendString b (str "packfile\n")

/-- Embeds `FetchResponse.Bytes`. -/
def FetchResponse.Bytes (fr : FetchResponse) : List Nat :=
  fr.Append []

/-- The inner loop of `FetchResponse.Parse` over the packfile section: one
side-band unit per framed event, forwarding channel-1 data to the packfile
sink and channel-2 data to the progress sink, until flush (success, `nil`
error), a fatal channel-3 unit, an invalid channel, or another scan error. -/
def packfileScan (pack prog : List Nat) :
    List Pkt → Option Err × List Nat × List Nat × List Pkt
  | [] => (some .eof, pack, prog, [])
  | .flush :: rest => (none, pack, prog, rest)
  | .delim :: rest => (some .delimPkt, pack, prog, rest)
  | .data line :: rest =>
    let s := SideBand line
    if s.1 = 1 then packfileScan (pack ++ s.2) prog rest
    else if s.1 = 2 then packfileScan pack (prog ++ s.2) rest
    else if s.1 = 3 then (some (.fatal s.2), pack, prog, rest)
    else (some (.invalidSideband line), pack, prog, rest)

/-- Embeds `FetchResponse.Parse`: scan a line, skip a delimiter scanned here,
dispatch on the fixed section headers (each section parser's resulting error —
always present, as those parsers only exit through one — is returned as-is),
and on the `packfile` header run the side-band loop. -/
def FetchResponse.Parse (fr : FetchResponse) (pack prog : List Nat) :
    List Pkt → FetchResponse × Option Err × List Nat × List Nat × List Pkt
  | [] => (fr, some .eof, pack, prog, [])
  | .flush :: rest => (fr, some .flushPkt, pack, prog, rest)
  | .delim :: rest => FetchResponse.Parse fr pack prog rest
  | .data line :: rest =>
    if line = str "acknowledgments\n" then
      let r := Acknowledgements.Parse fr.Acknowledgements rest
      ({ fr with Acknowledgements := r.1 }, some r.2.1, pack, prog, r.2.2)
    else if line = str "shallow-info\n" then
      let r := ShallowInfo.Parse fr.ShallowInfo rest
      ({ fr with ShallowInfo := r.1 }, some r.2.1, pack, prog, r.2.2)
    else if line = str "wanted-refs\n" then
      let r := WantedRefs.Parse fr.WantedRefs rest
      ({ fr with WantedRefs := r.1 }, some r.2.1, pack, prog, r.2.2)
    else if line = str "packfile-uris\n" then
      let r := PackfileURIs.Parse fr.PackfileURIs rest
      ({ fr with PackfileURIs := r.1 }, some r.2.1, pack, prog, r.2.2)
    else if line = str "packfile\n" then
      let r := packfileScan pack prog rest
      (fr, r.1, r.2.1, r.2.2.1, r.2.2.2)
    else (fr, some (.unsupportedPktLine line), pack, prog, rest)

/-- Validity of a capability for the round-trip claim: non-empty key without
the `=` separator (the documented key grammar is `1*(ALPHA | DIGIT | "-_")`,
a subset), fitting in one framed unit. -/
def Capability.WF (c : Capability) : Prop :=
  c.Key ≠ [] ∧ 61 ∉ c.Key ∧ c.Key.length + c.Value.length + 6 < 65536

instance (c : Capability) : Decidable c.WF := by
  unfold Capability.WF; infer_instance

/-- Validity of an argument for the round-trip claim: non-empty key without
the space separator, fitting in one framed unit. -/
def CommandArgument.WF (ca : CommandArgument) : Prop :=
  ca.Key ≠ [] ∧ 32 ∉ ca.Key ∧ ca.Key.length + ca.Value.length + 5 < 65536

instance (ca : CommandArgument) : Decidable ca.WF := by
  unfold CommandArgument.WF; infer_instance

/-- Validity of a reference for the round-trip claim: no space inside the
object id, the name, or any attribute (spaces are the field separators). -/
def Reference.WF (r : Reference) : Prop :=
  32 ∉ r.ObjectID ∧ 32 ∉ r.Name ∧ ∀ a ∈ r.Attributes, 32 ∉ a

instance (r : Reference) : Decidable r.WF := by
  unfold Reference.WF; infer_instance

/-- A framed event renderable in one pkt-line: the length header fits. -/
def Pkt.WF : Pkt → Prop
  | .data l => l.length + 4 < 65536
  | .flush => True
  | .delim => True

/-- Token-level mirror of `Capabilities.Append`: one content unit per
capability. -/
def capsTokens (cs : Capabilities) : List Pkt :=
  cs.map (fun c => Pkt.data c.line)

/-- Token-level mirror of `CommandArguments.Append`. -/
def argsTokens (cas : CommandArguments) : List Pkt :=
  cas.map (fun a => Pkt.data a.line)

/-- Token-level mirror of `CapabilityAdvertisement.Append`. -/
def advTokens (ca : CapabilityAdvertisement) : List Pkt :=
  [.data (str "version 2\n")] ++ capsTokens ca.Capabilities ++ [.flush]

/-- Token-level mirror of `CommandRequest.Append`. -/
def reqTokens (cr : CommandRequest) : List Pkt :=
  [.data (str "command=" ++ cr.Command ++ str "\n")] ++ capsTokens cr.Capabilities ++
    [.delim] ++ argsTokens cr.Arguments ++ [.flush]

/-- Token-level mirror of `Acknowledgements.Append`. -/
def Acknowledgements.tokens (a : Acknowledgements) : List Pkt :=
  [.data (str "acknowledgments\n")] ++
    (if a.Ready then [Pkt.data (str "ready\n")] else []) ++
    (if a.NAK then [Pkt.data (str "NAK\n")] else []) ++
    a.ACKs.map (fun objID => Pkt.data (str "ACK " ++ objID ++ [10]))

/-- Token-level mirror of `ShallowInfo.Append`. -/
def ShallowInfo.tokens (si : ShallowInfo) : List Pkt :=
  [.data (str "shallow-info\n")] ++
    si.Shallow.map (fun s => Pkt.data (str "shallow " ++ s.ObjectID ++ [10])) ++
    si.Unshallow.map (fun u => Pkt.data (str "unshallow " ++ u.ObjectID ++ [10]))

/-- Token-level mirror of `WantedRefs.Append`. -/
def WantedRefs.tokens (wrs : WantedRefs) : List Pkt :=
  [.data (str "wanted-refs\n")] ++
    wrs.map (fun wr => Pkt.data (wr.ObjectID ++ [32] ++ wr.Name ++ [10]))

/-- Token-level mirror of `PackfileURIs.Append`. -/
def PackfileURIs.tokens (pus : PackfileURIs) : List Pkt :=
  [.data (str "packfile-uris\n")] ++
    pus.map (fun pu => Pkt.data (pu.Checksum ++ [32] ++ pu.URI ++ [10]))

/-- Token-level mirror of `FetchResponse.Append`. -/
def FetchResponse.tokens (fr : FetchResponse) : List Pkt :=
  if !fr.Acknowledgements.IsZero && fr.Acknowledgements.NAK then
    fr.Acknowledgements.tokens ++ [.flush]
  else
    (if !fr.Acknowledgements.IsZero then fr.Acknowledgements.tokens ++ [.delim] else []) ++
      (if !fr.ShallowInfo.IsZero then fr.ShallowInfo.tokens else []) ++
      (if !(WantedRefs.IsZero fr.WantedRefs) then WantedRefs.tokens fr.WantedRefs else []) ++
      (if !(PackfileURIs.IsZero fr.PackfileURIs) then
        PackfileURIs.tokens fr.PackfileURIs else []) ++
      [.data (str "packfile\n")]

/-! ## Helper lemmas: byte-string splitting -/

theorem cutEnd_append (s x : List Nat) : cutEnd s (x ++ s) = some x := by
  unfold cutEnd
  rw [if_pos (List.isSuffixOf_iff_suffix.mpr (List.suffix_append x s))]
  simp [List.take_left]

theorem isPrefixOf_append_self (p x : List Nat) : p.isPrefixOf (p ++ x) = true := by
  induction p with
  | nil => simp [List.isPrefixOf]
  | cons a as ih => simp [List.isPrefixOf, ih]

theorem cutStart_append (p x : List Nat) : cutStart p (p ++ x) = some x := by
  unfold cutStart
  rw [if_pos (isPrefixOf_append_self p x), List.drop_left]

theorem cut_not_mem (sep : Nat) (l : List Nat) (h : sep ∉ l) : cut sep l = (l, [], false) := by
  induction l with
  | nil => rfl
  | cons b rest ih =>
    simp only [List.mem_cons, not_or] at h
    simp [cut, Ne.symm h.1, ih h.2]

theorem cut_append (sep : Nat) (k v : List Nat) (h : sep ∉ k) :
    cut sep (k ++ sep :: v) = (k, v, true) := by
  induction k with
  | nil => simp [cut]
  | cons b rest ih =>
    simp only [List.mem_cons, not_or] at h
    simp [cut, Ne.symm h.1, ih h.2]

theorem cut_eq_split (sep : Nat) (l : List Nat) :
    cut sep l =
      (l.takeWhile (fun b => b != sep), (l.dropWhile (fun b => b != sep)).tail,
        l.contains sep) := by
  induction l with
  | nil => simp [cut]
  | cons b rest ih =>
    by_cases hb : b = sep
    · simp [cut, hb, ih, List.takeWhile_cons, List.dropWhile_cons]
    · simp [cut, hb, Ne.symm hb, ih, List.takeWhile_cons, List.dropWhile_cons]

/-! ## Helper lemmas: pkt-line framing round-trip -/

theorem fromHexDig_hexDig (d : Nat) (h : d < 16) : fromHexDig (hexDig d) = some d := by
  unfold hexDig fromHexDig
  by_cases h10 : d < 10
  · rw [if_pos h10, if_pos (by omega)]
    congr 1
    omega
  · rw [if_neg h10, if_neg (by omega), if_pos (by omega)]
    congr 1
    omega

theorem renderPkts_nil : renderPkts [] = [] := rfl

theorem renderPkts_cons (p : Pkt) (ts : List Pkt) :
    renderPkts (p :: ts) = renderPkt p ++ renderPkts ts := by
  simp [renderPkts]

theorem readPkt_renderPkt (p : Pkt) (rest : List Nat) (h : p.WF) :
    readPkt (renderPkt p ++ rest) = some (p, rest) := by
  cases p with
  | flush =>
    show readPkt (str "0000" ++ rest) = some (.flush, rest)
    have h0 : str "0000" = [48, 48, 48, 48] := rfl
    rw [h0]
    simp [readPkt, fromHexDig]
  | delim =>
    show readPkt (str "0001" ++ rest) = some (.delim, rest)
    have h0 : str "0001" = [48, 48, 48, 49] := rfl
    rw [h0]
    simp [readPkt, fromHexDig]
  | data l =>
    have hwf : l.length + 4 < 65536 := h
    show readPkt (hex4 (l.length + 4) ++ l ++ rest) = some (.data l, rest)
    set n := l.length + 4 with hn
    have hd3 := fromHexDig_hexDig (n / 4096 % 16) (Nat.mod_lt _ (by omega))
    have hd2 := fromHexDig_hexDig (n / 256 % 16) (Nat.mod_lt _ (by omega))
    have hd1 := fromHexDig_hexDig (n / 16 % 16) (Nat.mod_lt _ (by omega))
    have hd0 := fromHexDig_hexDig (n % 16) (Nat.mod_lt _ (by omega))
    have hsum : n / 4096 % 16 * 4096 + n / 256 % 16 * 256 + n / 16 % 16 * 16 + n % 16 = n := by
      omega
    simp only [hex4, List.cons_append, List.nil_append, readPkt, hd3, hd2, hd1, hd0, hsum]
    rw [if_neg (by omega), if_neg (by omega), if_neg (by omega),
      if_pos (by simp [List.length_append]; omega)]
    have htake : n - 4 = l.length := by omega
    rw [htake, List.take_left, List.drop_left]

theorem renderPkt_ne_nil (p : Pkt) : renderPkt p ≠ [] := by
  cases p <;> simp [renderPkt, hex4, str]

theorem length_renderPkts_ge (ts : List Pkt) : ts.length ≤ (renderPkts ts).length := by
  induction ts with
  | nil => simp [renderPkts]
  | cons p ts ih =>
    rw [renderPkts_cons]
    have : 1 ≤ (renderPkt p).length := by
      cases hp : renderPkt p
      · exact absurd hp (renderPkt_ne_nil p)
      · simp
    simp only [List.length_append, List.length_cons]
    omega

theorem scanPktsAux_renderPkts (ts : List Pkt) (h : ∀ p ∈ ts, p.WF) :
    ∀ fuel, ts.length ≤ fuel → scanPktsAux fuel (renderPkts ts) = some ts := by
  induction ts with
  | nil => intro fuel _; cases fuel <;> rfl
  | cons p ts ih =>
    intro fuel hf
    cases fuel with
    | zero => simp at hf
    | succ fuel =>
      rw [renderPkts_cons]
      obtain ⟨x, xs, hx⟩ : ∃ x xs, renderPkt p ++ renderPkts ts = x :: xs := by
        cases hr : renderPkt p ++ renderPkts ts with
        | nil =>
          exact absurd (List.append_eq_nil.mp hr).1 (renderPkt_ne_nil p)
        | cons x xs => exact ⟨x, xs, rfl⟩
      rw [hx]
      have hread : readPkt (x :: xs) = some (p, renderPkts ts) := by
        rw [← hx]
        exact readPkt_renderPkt p _ (h p (by simp))
      simp only [scanPktsAux, hread]
      rw [ih (fun q hq => h q (by simp [hq])) fuel (by simpa using hf)]

theorem scanPkts_renderPkts (ts : List Pkt) (h : ∀ p ∈ ts, p.WF) :
    scanPkts (renderPkts ts) = some ts :=
  scanPktsAux_renderPkts ts h _ (length_renderPkts_ge ts)

/-! ## Helper lemmas: byte-level encoders agree with the token-level mirrors -/

theorem foldl_append_flatten {α : Type} (g : α → List Nat) (xs : List α) (b : List Nat) :
    xs.foldl (fun acc x => acc ++ g x) b = b ++ (xs.map g).flatten := by
  induction xs generalizing b with
  | nil => simp
  | cons x xs ih => simp [ih, List.append_assoc]

theorem capabilityAppend_eq (c : Capability) (b : List Nat) :
    c.Append b = b ++ renderPkt (.data c.line) := by
  by_cases hv : 0 < c.Value.length
  · simp only [Capability.Append, Capability.line, hv, if_pos, renderPkt,
      AppendLength, List.append_assoc]
    have hl : (c.Key ++ ([61] ++ (c.Value ++ [10]))).length + 4 =
        c.Key.length + 1 + c.Value.length + 1 + 4 := by
      simp
      omega
    rw [hl]
  · simp only [Capability.Append, Capability.line, hv, if_false, renderPkt,
      AppendLength, List.append_assoc]
    have hl : (c.Key ++ [10]).length + 4 = c.Key.length + 1 + 4 := by simp
    rw [hl]

theorem capabilitiesAppend_eq (cs : Capabilities) (b : List Nat) :
    Capabilities.Append cs b = b ++ renderPkts (capsTokens cs) := by
  induction cs generalizing b with
  | nil => simp [Capabilities.Append, capsTokens, renderPkts]
  | cons c cs ih =>
    rw [Capabilities.Append, ih, capabilityAppend_eq]
    simp [capsTokens, renderPkts, List.append_assoc]

theorem argumentAppend_eq (ca : CommandArgument) (b : List Nat) :
    ca.Append b = b ++ renderPkt (.data ca.line) := by
  by_cases hv : ca.Value.length = 0 <;>
    simp [CommandArgument.Append, CommandArgument.line, hv, renderPkt, AppendString,
      AppendLength, List.append_assoc]

theorem argumentsAppend_eq (cas : CommandArguments) (b : List Nat) :
    CommandArguments.Append cas b = b ++ renderPkts (argsTokens cas) := by
  induction cas generalizing b with
  | nil => simp [CommandArguments.Append, argsTokens, renderPkts]
  | cons a cas ih =>
    rw [CommandArguments.Append, ih, argumentAppend_eq]
    simp [argsTokens, renderPkts, List.append_assoc]

theorem advertisementAppend_eq (ca : CapabilityAdvertisement) (b : List Nat) :
    ca.Append b = b ++ renderPkts (advTokens ca) := by
  rw [CapabilityAdvertisement.Append, AppendFlushPkt, capabilitiesAppend_eq]
  simp [AppendString, AppendLength, advTokens, renderPkts, renderPkt, List.append_assoc]

theorem requestAppend_eq (cr : CommandRequest) (b : List Nat) :
    cr.Append b = b ++ renderPkts (reqTokens cr) := by
  rw [CommandRequest.Append, AppendFlushPkt, argumentsAppend_eq, AppendDelimPkt,
    capabilitiesAppend_eq]
  simp [AppendString, AppendLength, reqTokens, renderPkts, renderPkt, List.append_assoc]

theorem renderPkts_append (A B : List Pkt) :
    renderPkts (A ++ B) = renderPkts A ++ renderPkts B := by
  simp [renderPkts]

theorem hex4_congr {m n : Nat} (h : m = n) : hex4 m = hex4 n := by
  rw [h]

theorem acksAppend_eq (a : Acknowledgements) (b : List Nat) :
    a.Append b = b ++ renderPkts a.tokens := by
  have h4 : (str "ACK ").length = 4 := rfl
  have hfun : (fun (acc objID : List Nat) =>
      AppendLength acc (4 + objID.length + 1) ++ str "ACK " ++ objID ++ [10]) =
      (fun acc objID => acc ++ renderPkt (.data (str "ACK " ++ objID ++ [10]))) := by
    funext acc objID
    simp [AppendLength, renderPkt, List.append_assoc, h4]
    exact hex4_congr (by omega)
  unfold Acknowledgements.Append Acknowledgements.tokens
  rw [hfun, foldl_append_flatten]
  by_cases hr : a.Ready <;> by_cases hn : a.NAK <;>
    simp [hr, hn, AppendString, AppendLength, renderPkts, renderPkt, List.map_map,
      List.append_assoc, Function.comp_def, h4]

theorem shallowInfoAppend_eq (si : ShallowInfo) (b : List Nat) :
    si.Append b = b ++ renderPkts si.tokens := by
  have h8 : (str "shallow ").length = 8 := rfl
  have h10 : (str "unshallow ").length = 10 := rfl
  have hfunS : (fun (acc : List Nat) (s : Shallow) => s.Append acc) =
      (fun acc s => acc ++ renderPkt (.data (str "shallow " ++ s.ObjectID ++ [10]))) := by
    funext acc s
    simp [Shallow.Append, AppendLength, renderPkt, List.append_assoc, h8]
    exact hex4_congr (by omega)
  have hfunU : (fun (acc : List Nat) (u : Unshallow) => u.Append acc) =
      (fun acc u => acc ++ renderPkt (.data (str "unshallow " ++ u.ObjectID ++ [10]))) := by
    funext acc u
    simp [Unshallow.Append, AppendLength, renderPkt, List.append_assoc, h10]
    exact hex4_congr (by omega)
  unfold ShallowInfo.Append ShallowInfo.tokens
  rw [hfunS, hfunU, foldl_append_flatten, foldl_append_flatten]
  simp [AppendString, AppendLength, renderPkts, renderPkt, List.map_map,
    List.append_assoc, Function.comp_def, h8, h10]

theorem wantedRefsAppend_eq (wrs : WantedRefs) (b : List Nat) :
    WantedRefs.Append wrs b = b ++ renderPkts (WantedRefs.tokens wrs) := by
  have hfun : (fun (acc : List Nat) (wr : WantedRef) => wr.Append acc) =
      (fun acc wr =>
        acc ++ renderPkt (.data (wr.ObjectID ++ [32] ++ wr.Name ++ [10]))) := by
    funext acc wr
    simp [WantedRef.Append, AppendLength, renderPkt, List.append_assoc]
    exact hex4_congr (by omega)
  unfold WantedRefs.Append WantedRefs.tokens
  rw [hfun, foldl_append_flatten]
  simp [AppendString, AppendLength, renderPkts, renderPkt, List.map_map,
    List.append_assoc, Function.comp_def]

theorem urisAppend_eq (pus : PackfileURIs) (b : List Nat) :
    PackfileURIs.Append pus b = b ++ renderPkts (PackfileURIs.tokens pus) := by
  have hfun : (fun (acc : List Nat) (pu : PackfileURI) => pu.Append acc) =
      (fun acc pu =>
        acc ++ renderPkt (.data (pu.Checksum ++ [32] ++ pu.URI ++ [10]))) := by
    funext acc pu
    simp [PackfileURI.Append, AppendLength, renderPkt, List.append_assoc]
    exact hex4_congr (by omega)
  unfold PackfileURIs.Append PackfileURIs.tokens
  rw [hfun, foldl_append_flatten]
  simp [AppendString, AppendLength, renderPkts, renderPkt, List.map_map,
    List.append_assoc, Function.comp_def]

theorem fetchAppend_eq (fr : FetchResponse) (b : List Nat) :
    fr.Append b = b ++ renderPkts fr.tokens := by
  unfold FetchResponse.Append FetchResponse.tokens
  by_cases hz : fr.Acknowledgements.IsZero <;> by_cases hn : fr.Acknowledgements.NAK <;>
    by_cases hsi : fr.ShallowInfo.IsZero <;>
    by_cases hwr : WantedRefs.IsZero fr.WantedRefs <;>
    by_cases hpu : PackfileURIs.IsZero fr.PackfileURIs <;>
    simp [hz, hn, hsi, hwr, hpu, acksAppend_eq, shallowInfoAppend_eq,
      wantedRefsAppend_eq, urisAppend_eq, AppendString, AppendLength,
      AppendFlushPkt, AppendDelimPkt, renderPkts_append, renderPkts, renderPkt,
      List.append_assoc]

/-! ## Helper lemmas: decoding an encoded value -/

theorem capabilityParse_line (c : Capability) (h : c.WF) :
    Capability.Parse c.line = .ok c := by
  obtain ⟨K, V⟩ := c
  obtain ⟨hk, hne, -⟩ := h
  simp only at hk hne
  have hk0 : ¬K.length = 0 := by
    simpa [List.length_eq_zero] using hk
  by_cases hv : 0 < V.length
  · have hce : cutEnd (str "\n") (Capability.line ⟨K, V⟩) = some (K ++ 61 :: V) := by
      have hline : Capability.line ⟨K, V⟩ = (K ++ 61 :: V) ++ str "\n" := by
        simp [Capability.line, hv, List.append_assoc]
        rfl
      rw [hline, cutEnd_append]
    have hv0 : ¬V.length = 0 := by omega
    simp [Capability.Parse, hce, cut_append 61 _ _ hne, hk0, hv0]
  · have hveq : V = [] := by
      rw [← List.length_eq_zero]
      omega
    subst hveq
    have hce : cutEnd (str "\n") (Capability.line ⟨K, []⟩) = some K := by
      have hline : Capability.line ⟨K, []⟩ = K ++ str "\n" := by
        simp [Capability.line]
        rfl
      rw [hline, cutEnd_append]
    simp [Capability.Parse, hce, cut_not_mem 61 _ hne, hk0]

theorem argumentParse_line (ca : CommandArgument) (h : ca.WF) :
    CommandArgument.Parse ca.line = .ok ca := by
  obtain ⟨K, V⟩ := ca
  obtain ⟨hk, hne, -⟩ := h
  simp only at hk hne
  have hk0 : ¬K.length = 0 := by
    simpa [List.length_eq_zero] using hk
  by_cases hv : V.length = 0
  · have hveq : V = [] := List.length_eq_zero.mp hv
    subst hveq
    have hline : CommandArgument.line ⟨K, []⟩ = K := by
      simp [CommandArgument.line]
    simp [CommandArgument.Parse, hline, cut_not_mem 32 _ hne, hk0]
  · have hline : CommandArgument.line ⟨K, V⟩ = K ++ 32 :: V := by
      simp [CommandArgument.line, hv, List.append_assoc]
    simp [CommandArgument.Parse, hline, cut_append 32 _ _ hne, hk0, hv]

theorem capabilitiesParse_append (caps : Capabilities) (h : ∀ c ∈ caps, c.WF) :
    ∀ (acc : Capabilities) (ts : List Pkt),
      Capabilities.Parse acc (capsTokens caps ++ ts) = Capabilities.Parse (acc ++ caps) ts := by
  induction caps with
  | nil => intro acc ts; simp [capsTokens]
  | cons c caps ih =>
    intro acc ts
    have hc := capabilityParse_line c (h c (by simp))
    simp only [capsTokens, List.map_cons, List.cons_append]
    rw [Capabilities.Parse, hc]
    dsimp only
    rw [show List.map (fun c => Pkt.data c.line) caps = capsTokens caps from rfl,
      ih (fun x hx => h x (by simp [hx])) (acc ++ [c]) ts]
    simp

theorem argumentsParse_append (cas : CommandArguments) (h : ∀ a ∈ cas, a.WF) :
    ∀ (acc : CommandArguments) (ts : List Pkt),
      CommandArguments.Parse acc (argsTokens cas ++ ts) =
        CommandArguments.Parse (acc ++ cas) ts := by
  induction cas with
  | nil => intro acc ts; simp [argsTokens]
  | cons a cas ih =>
    intro acc ts
    have ha := argumentParse_line a (h a (by simp))
    simp only [argsTokens, List.map_cons, List.cons_append]
    rw [CommandArguments.Parse, ha]
    dsimp only
    rw [show List.map (fun a => Pkt.data a.line) cas = argsTokens cas from rfl,
      ih (fun x hx => h x (by simp [hx])) (acc ++ [a]) ts]
    simp

theorem CapabilityAdvertisement.Parse_adv (caps : List Capability) (h : ∀ c ∈ caps, c.WF) :
    CapabilityAdvertisement.Parse ⟨[]⟩ (advTokens ⟨caps⟩) = (⟨caps⟩, none, []) := by
  have hlist : Capabilities.Parse [] (capsTokens caps ++ [Pkt.flush]) =
      (caps, .flushPkt, []) := by
    rw [capabilitiesParse_append caps h [] [Pkt.flush]]
    simp [Capabilities.Parse]
  simp [advTokens, CapabilityAdvertisement.Parse, hlist]

theorem CommandRequest.Parse_req (cr : CommandRequest) (hc : ∀ c ∈ cr.Capabilities, c.WF)
    (ha : ∀ a ∈ cr.Arguments, a.WF) :
    CommandRequest.Parse ⟨[], [], []⟩ (reqTokens cr) = (cr, none, []) := by
  obtain ⟨cmd, caps, args⟩ := cr
  simp only at hc ha
  have hce : cutEnd (str "\n") (str "command=" ++ (cmd ++ str "\n")) =
      some (str "command=" ++ cmd) := by
    rw [show str "command=" ++ (cmd ++ str "\n") = (str "command=" ++ cmd) ++ str "\n" by
      simp [List.append_assoc], cutEnd_append]
  have hcs : cutStart (str "command=") (str "command=" ++ cmd) = some cmd :=
    cutStart_append _ _
  have hcaps : Capabilities.Parse [] (capsTokens caps ++
      (Pkt.delim :: (argsTokens args ++ [Pkt.flush]))) =
      (caps, .delimPkt, argsTokens args ++ [Pkt.flush]) := by
    rw [capabilitiesParse_append caps hc]
    simp [Capabilities.Parse]
  have hargs : CommandArguments.Parse [] (argsTokens args ++ [Pkt.flush]) =
      (args, .flushPkt, []) := by
    rw [argumentsParse_append args ha]
    simp [CommandArguments.Parse]
  simp [reqTokens, CommandRequest.Parse, hce, hcs, hcaps, hargs, List.append_assoc]

theorem Reference.parseAttrs_join (attrs : List (List Nat)) (h : ∀ a ∈ attrs, 32 ∉ a) :
    ∀ (acc : List (List Nat)) (first : List Nat), 32 ∉ first →
      Reference.parseAttrs acc
        (first ++ (attrs.map (fun a => 32 :: a)).flatten) true = acc ++ first :: attrs := by
  induction attrs with
  | nil =>
    intro acc first hf
    rw [Reference.parseAttrs]
    simp [cut_not_mem 32 _ hf, Reference.parseAttrs]
  | cons a attrs ih =>
    intro acc first hf
    have hsplit : first ++ ((a :: attrs).map (fun a => 32 :: a)).flatten =
        first ++ 32 :: (a ++ (attrs.map (fun a => 32 :: a)).flatten) := by
      simp
    rw [hsplit, Reference.parseAttrs]
    simp only [cut_append 32 _ _ hf, dite_true]
    rw [ih (fun x hx => h x (by simp [hx])) (acc ++ [first]) a (h a (by simp))]
    simp

theorem referenceParse_line (r : Reference) (h : r.WF) :
    Reference.Parse r.line = .ok r := by
  obtain ⟨oid, name, attrs⟩ := r
  obtain ⟨ho, hn, ha⟩ := h
  simp only at ho hn ha
  have hce : cutEnd (str "\n") (Reference.line ⟨oid, name, attrs⟩) =
      some (oid ++ 32 :: (name ++ (attrs.map (fun a => 32 :: a)).flatten)) := by
    have hline : Reference.line ⟨oid, name, attrs⟩ =
        (oid ++ 32 :: (name ++ (attrs.map (fun a => 32 :: a)).flatten)) ++ str "\n" := by
      simp [Reference.line, List.append_assoc]
      rfl
    rw [hline, cutEnd_append]
  cases attrs with
  | nil =>
    simp [Reference.Parse, hce, cut_append 32 _ _ ho, cut_not_mem 32 _ hn,
      Reference.parseAttrs]
  | cons a attrs =>
    have hsplit : name ++ ((a :: attrs).map (fun x => 32 :: x)).flatten =
        name ++ 32 :: (a ++ (attrs.map (fun x => 32 :: x)).flatten) := by
      simp
    have hattrs := Reference.parseAttrs_join attrs
      (fun x hx => ha x (by simp [hx])) [] a (ha a (by simp))
    simp [Reference.Parse, hce, hsplit, cut_append 32 _ _ ho, cut_append 32 _ _ hn, hattrs]

/-! ## Helper lemmas: encoded tokens fit in pkt-line frames -/

theorem capabilityLine_wf (c : Capability) (h : c.WF) : (Pkt.data c.line).WF := by
  obtain ⟨-, -, hb⟩ := h
  by_cases hv : 0 < c.Value.length <;>
    simp [Pkt.WF, Capability.line, hv] <;> omega

theorem argumentLine_wf (ca : CommandArgument) (h : ca.WF) :
    (Pkt.data ca.line).WF := by
  obtain ⟨-, -, hb⟩ := h
  by_cases hv : ca.Value.length = 0 <;>
    simp [Pkt.WF, CommandArgument.line, hv] <;> omega

theorem advTokens_wf (caps : List Capability) (h : ∀ c ∈ caps, c.WF) :
    ∀ p ∈ advTokens ⟨caps⟩, p.WF := by
  intro p hp
  simp [advTokens, capsTokens] at hp
  rcases hp with rfl | ⟨c, hc, rfl⟩ | rfl
  · show (str "version 2\n").length + 4 < 65536
    have h10 : (str "version 2\n").length = 10 := rfl
    omega
  · exact capabilityLine_wf c (h c hc)
  · trivial

theorem reqTokens_wf (cr : CommandRequest) (hc : ∀ c ∈ cr.Capabilities, c.WF)
    (ha : ∀ a ∈ cr.Arguments, a.WF) (hcmd : cr.Command.length + 13 < 65536) :
    ∀ p ∈ reqTokens cr, p.WF := by
  intro p hp
  simp [reqTokens, capsTokens, argsTokens] at hp
  rcases hp with rfl | ⟨c, hcm, rfl⟩ | rfl | ⟨a, ham, rfl⟩ | rfl
  · show (str "command=" ++ cr.Command ++ str "\n").length + 4 < 65536
    have h8 : (str "command=").length = 8 := rfl
    have h1 : (str "\n").length = 1 := rfl
    simp [h8, h1]
    omega
  · exact capabilityLine_wf c (hc c hcm)
  · trivial
  · exact argumentLine_wf a (ha a ham)
  · trivial

/-! ## Claim theorems -/

/-- C1: the claim states that `FetchResponse.Parse` returns success when the
acknowledgements section is followed by a flush terminator, and continues into
the next section when it is followed by a delimiter.  The code does neither:
`Acknowledgements.Parse` only exits by returning the scanner's error, and
`FetchResponse.Parse` returns any such error as-is, so the flush sentinel and
the delimiter sentinel both surface as errors (the delimiter-skipping branch of
the outer loop never sees them).  This theorem evaluates the embedded code at
both failing inputs. -/
theorem C1_terminator_propagated_eval :
    FetchResponse.Parse ⟨⟨false, false, []⟩, ⟨[], []⟩, [], []⟩ [] []
        [.data (str "acknowledgments\n"), .data (str "NAK\n"), .flush] =
      (⟨⟨false, true, []⟩, ⟨[], []⟩, [], []⟩, some .flushPkt, [], [], []) ∧
    FetchResponse.Parse ⟨⟨false, false, []⟩, ⟨[], []⟩, [], []⟩ [] []
        [.data (str "acknowledgments\n"), .data (str "ACK x\n"), .delim,
          .data (str "shallow-info\n"), .data (str "shallow y\n"), .flush] =
      (⟨⟨false, false, [str "x"]⟩, ⟨[], []⟩, [], []⟩, some .delimPkt, [], [],
        [.data (str "shallow-info\n"), .data (str "shallow y\n"), .flush]) :=
  ⟨by decide, by decide⟩

/-- C2: a fetch response whose acknowledgements contain NAK encodes as the
acknowledgements section immediately followed by the flush terminator and
nothing else — the shallow-info, wanted-refs and packfile-uris sections are
not emitted even when populated in the value. -/
theorem C2_nak_early_exit (fr : FetchResponse) (b : List Nat)
    (h : fr.Acknowledgements.NAK = true) :
    fr.Append b = AppendFlushPkt (Acknowledgements.Append fr.Acknowledgements b) := by
  have hz : fr.Acknowledgements.IsZero = false := by
    simp [Acknowledgements.IsZero, h]
  simp [FetchResponse.Append, hz, h]

/-- Witness for C2 at a fetch response with NAK set and every other section
populated. -/
theorem C2_nak_early_exit_witness :
    (⟨⟨true, true, [str "aa"]⟩, ⟨[⟨str "s"⟩], []⟩, [⟨str "o", str "n"⟩],
        [⟨str "c", str "u"⟩]⟩ : FetchResponse).Acknowledgements.NAK = true ∧
    FetchResponse.Append
        ⟨⟨true, true, [str "aa"]⟩, ⟨[⟨str "s"⟩], []⟩, [⟨str "o", str "n"⟩],
          [⟨str "c", str "u"⟩]⟩ [] =
      AppendFlushPkt (Acknowledgements.Append ⟨true, true, [str "aa"]⟩ []) :=
  ⟨rfl, C2_nak_early_exit _ [] rfl⟩

/-- C3 counterexample: the claim says the terminal error carries exactly
`"xyz"` when the channel-3 payload is `"fatal: xyz"`; the code wraps the whole
payload after the channel byte without stripping anything, so the error
carries `"fatal: xyz"`, not `"xyz"`. -/
theorem C3_channel3_counterexample :
    (FetchResponse.Parse ⟨⟨false, false, []⟩, ⟨[], []⟩, [], []⟩ [] []
        [.data (str "packfile\n"), .data (3 :: str "fatal: xyz"), .flush]).2.1 =
      some (.fatal (str "fatal: xyz")) ∧
    (FetchResponse.Parse ⟨⟨false, false, []⟩, ⟨[], []⟩, [], []⟩ [] []
        [.data (str "packfile\n"), .data (3 :: str "fatal: xyz"), .flush]).2.1 ≠
      some (.fatal (str "xyz")) :=
  ⟨by decide, by decide⟩

/-- C3 as amended: a side-band unit with leading payload byte 3 stops decoding
immediately, forwards none of that unit's bytes to the packfile or progress
sinks, and surfaces a terminal error carrying exactly the unit's payload after
the channel byte (so for payload `"fatal: xyz"` the error carries
`"fatal: xyz"`; the Go message prefixes another `"fatal: "`). -/
theorem C3_channel3_stops :
    (∀ (d : List Nat) (rest : List Pkt) (pack prog : List Nat),
      packfileScan pack prog (.data (3 :: d) :: rest) =
        (some (.fatal d), pack, prog, rest)) ∧
    (∀ (fr : FetchResponse) (d : List Nat) (rest : List Pkt) (pack prog : List Nat),
      FetchResponse.Parse fr pack prog
          (.data (str "packfile\n") :: .data (3 :: d) :: rest) =
        (fr, some (.fatal d), pack, prog, rest)) := by
  constructor
  · intro d rest pack prog
    simp [packfileScan, SideBand]
  · intro fr d rest pack prog
    rw [FetchResponse.Parse]
    rw [if_neg (by decide), if_neg (by decide), if_neg (by decide), if_neg (by decide),
      if_pos rfl]
    simp [packfileScan, SideBand]

/-- C4 counterexample: a fetch response with a populated shallow-info section
followed by a populated wanted-refs section does not round-trip: the encoder
emits the sections back to back with no delimiter, and `ShallowInfo.Parse`
rejects the `wanted-refs` header line, so decoding its own encoding loses the
wanted-refs (and errors) — the decoded value differs from the original. -/
theorem C4_roundtrip_counterexample :
    scanPkts (FetchResponse.Bytes ⟨⟨false, false, []⟩, ⟨[⟨str "a"⟩], []⟩,
        [⟨str "b", str "c"⟩], []⟩) =
      some [.data (str "shallow-info\n"), .data (str "shallow a\n"),
        .data (str "wanted-refs\n"), .data (str "b c\n"), .data (str "packfile\n")] ∧
    (FetchResponse.Parse ⟨⟨false, false, []⟩, ⟨[], []⟩, [], []⟩ [] []
        [.data (str "shallow-info\n"), .data (str "shallow a\n"),
          .data (str "wanted-refs\n"), .data (str "b c\n"),
          .data (str "packfile\n")]).1 ≠
      ⟨⟨false, false, []⟩, ⟨[⟨str "a"⟩], []⟩, [⟨str "b", str "c"⟩], []⟩ :=
  ⟨by decide, by decide⟩

/-- C4 as amended: decoding the bytes produced by encoding yields the original
value for capability, argument and reference lines, for capability and
argument lists (which end by reporting the section terminator to the caller),
and for capability advertisements and command requests decoded from their
exact encoded byte streams.  Fetch responses are excluded: their decoder
always surfaces a terminator sentinel or end-of-input instead of succeeding
and can drop populated sections (see the counterexample and C1). -/
theorem C4_roundtrip_amended :
    (∀ c : Capability, c.WF → Capability.Parse c.line = .ok c) ∧
    (∀ a : CommandArgument, a.WF → CommandArgument.Parse a.line = .ok a) ∧
    (∀ r : Reference, r.WF → Reference.Parse r.line = .ok r) ∧
    (∀ caps : List Capability, (∀ c ∈ caps, c.WF) →
      Capabilities.Parse [] (capsTokens caps ++ [Pkt.flush]) = (caps, .flushPkt, [])) ∧
    (∀ cas : List CommandArgument, (∀ a ∈ cas, a.WF) →
      CommandArguments.Parse [] (argsTokens cas ++ [Pkt.flush]) =
        (cas, .flushPkt, [])) ∧
    (∀ caps : List Capability, (∀ c ∈ caps, c.WF) →
      scanPkts (CapabilityAdvertisement.Bytes ⟨caps⟩) = some (advTokens ⟨caps⟩) ∧
      CapabilityAdvertisement.Parse ⟨[]⟩ (advTokens ⟨caps⟩) = (⟨caps⟩, none, [])) ∧
    (∀ cr : CommandRequest, (∀ c ∈ cr.Capabilities, c.WF) →
      (∀ a ∈ cr.Arguments, a.WF) → cr.Command.length + 13 < 65536 →
      scanPkts (CommandRequest.Bytes cr) = some (reqTokens cr) ∧
      CommandRequest.Parse ⟨[], [], []⟩ (reqTokens cr) = (cr, none, [])) := by
  refine ⟨capabilityParse_line, argumentParse_line, referenceParse_line,
    ?_, ?_, ?_, ?_⟩
  · intro caps h
    rw [capabilitiesParse_append caps h [] [Pkt.flush]]
    simp [Capabilities.Parse]
  · intro cas h
    rw [argumentsParse_append cas h [] [Pkt.flush]]
    simp [CommandArguments.Parse]
  · intro caps h
    refine ⟨?_, CapabilityAdvertisement.Parse_adv caps h⟩
    rw [CapabilityAdvertisement.Bytes, advertisementAppend_eq]
    simpa using scanPkts_renderPkts (advTokens ⟨caps⟩) (advTokens_wf caps h)
  · intro cr hc ha hcmd
    refine ⟨?_, CommandRequest.Parse_req cr hc ha⟩
    rw [CommandRequest.Bytes, requestAppend_eq]
    simpa using scanPkts_renderPkts (reqTokens cr) (reqTokens_wf cr hc ha hcmd)

/-- Witness for C4 as amended, at concrete values of every entity type. -/
theorem C4_roundtrip_amended_witness :
    Capability.Parse (Capability.line ⟨str "k", str "v"⟩) = .ok ⟨str "k", str "v"⟩ ∧
    CommandArgument.Parse (CommandArgument.line ⟨str "k", str "v"⟩) =
      .ok ⟨str "k", str "v"⟩ ∧
    Reference.Parse (Reference.line ⟨str "o", str "n", [str "x"]⟩) =
      .ok ⟨str "o", str "n", [str "x"]⟩ ∧
    Capabilities.Parse [] (capsTokens [⟨str "k", []⟩] ++ [Pkt.flush]) =
      ([⟨str "k", []⟩], .flushPkt, []) ∧
    CommandArguments.Parse [] (argsTokens [⟨str "a", []⟩] ++ [Pkt.flush]) =
      ([⟨str "a", []⟩], .flushPkt, []) ∧
    (scanPkts (CapabilityAdvertisement.Bytes ⟨[⟨str "k", str "v"⟩]⟩) =
      some (advTokens ⟨[⟨str "k", str "v"⟩]⟩) ∧
      CapabilityAdvertisement.Parse ⟨[]⟩ (advTokens ⟨[⟨str "k", str "v"⟩]⟩) =
        (⟨[⟨str "k", str "v"⟩]⟩, none, [])) ∧
    (scanPkts (CommandRequest.Bytes ⟨str "fetch", [⟨str "k", str "v"⟩],
        [⟨str "want", str "z"⟩]⟩) =
      some (reqTokens ⟨str "fetch", [⟨str "k", str "v"⟩], [⟨str "want", str "z"⟩]⟩) ∧
      CommandRequest.Parse ⟨[], [], []⟩
          (reqTokens ⟨str "fetch", [⟨str "k", str "v"⟩], [⟨str "want", str "z"⟩]⟩) =
        (⟨str "fetch", [⟨str "k", str "v"⟩], [⟨str "want", str "z"⟩]⟩, none, [])) :=
  ⟨C4_roundtrip_amended.1 _ (by decide),
    C4_roundtrip_amended.2.1 _ (by decide),
    C4_roundtrip_amended.2.2.1 _ (by decide),
    C4_roundtrip_amended.2.2.2.1 _ (by decide),
    C4_roundtrip_amended.2.2.2.2.1 _ (by decide),
    C4_roundtrip_amended.2.2.2.2.2.1 _ (by decide),
    C4_roundtrip_amended.2.2.2.2.2.2 _ (by decide) (by decide) (by decide)⟩

/-- C5: the literal capability advertisement from the repository's test scans
into the version line, five capability lines and the flush marker; parsing
yields exactly the five capabilities agent=git/github-8e2ff7c5586f,
ls-refs=unborn, fetch=shallow wait-for-done filter, server-option and
object-format=sha1 in that order, and appending the resulting value
reproduces the identical byte sequence. -/
theorem C5_literal_advertisement :
    scanPkts (str "000eversion 2\n0022agent=git/github-8e2ff7c5586f\n0013ls-refs=unborn\n0027fetch=shallow wait-for-done filter\n0012server-option\n0017object-format=sha1\n0000") =
      some [.data (str "version 2\n"), .data (str "agent=git/github-8e2ff7c5586f\n"),
        .data (str "ls-refs=unborn\n"), .data (str "fetch=shallow wait-for-done filter\n"),
        .data (str "server-option\n"), .data (str "object-format=sha1\n"), .flush] ∧
    CapabilityAdvertisement.Parse ⟨[]⟩
        [.data (str "version 2\n"), .data (str "agent=git/github-8e2ff7c5586f\n"),
          .data (str "ls-refs=unborn\n"),
          .data (str "fetch=shallow wait-for-done filter\n"),
          .data (str "server-option\n"), .data (str "object-format=sha1\n"), .flush] =
      (⟨[⟨str "agent", str "git/github-8e2ff7c5586f"⟩, ⟨str "ls-refs", str "unborn"⟩,
        ⟨str "fetch", str "shallow wait-for-done filter"⟩, ⟨str "server-option", []⟩,
        ⟨str "object-format", str "sha1"⟩]⟩, none, []) ∧
    CapabilityAdvertisement.Append
        ⟨[⟨str "agent", str "git/github-8e2ff7c5586f"⟩, ⟨str "ls-refs", str "unborn"⟩,
          ⟨str "fetch", str "shallow wait-for-done filter"⟩, ⟨str "server-option", []⟩,
          ⟨str "object-format", str "sha1"⟩]⟩ [] =
      str "000eversion 2\n0022agent=git/github-8e2ff7c5586f\n0013ls-refs=unborn\n0027fetch=shallow wait-for-done filter\n0012server-option\n0017object-format=sha1\n0000" :=
  ⟨by decide, by decide, by decide⟩

/-- C6: on an LF-terminated capability line the decoder splits the stripped
content at the first `=`, and on an argument line at the first space; each is
malformed exactly when the key segment is empty or a separator was found with
an empty value segment, and otherwise yields the key, with the value filled in
only when a separator was found. -/
theorem C6_pair_split :
    (∀ l : List Nat,
      Capability.Parse (l ++ [10]) =
        if l.takeWhile (fun b => b != 61) = [] ∨
            (l.contains 61 = true ∧ (l.dropWhile (fun b => b != 61)).tail = []) then
          .error (.invalidCapability (l ++ [10]))
        else if l.contains 61 then
          .ok ⟨l.takeWhile (fun b => b != 61), (l.dropWhile (fun b => b != 61)).tail⟩
        else .ok ⟨l, []⟩) ∧
    (∀ l : List Nat,
      CommandArgument.Parse l =
        if l.takeWhile (fun b => b != 32) = [] ∨
            (l.contains 32 = true ∧ (l.dropWhile (fun b => b != 32)).tail = []) then
          .error (.invalidArgument l)
        else if l.contains 32 then
          .ok ⟨l.takeWhile (fun b => b != 32), (l.dropWhile (fun b => b != 32)).tail⟩
        else .ok ⟨l, []⟩) := by
  constructor
  · intro l
    have hce : cutEnd (str "\n") (l ++ [10]) = some l := by
      rw [show l ++ [10] = l ++ str "\n" from rfl, cutEnd_append]
    by_cases hf : l.contains 61
    · have hmem : 61 ∈ l := by simpa using hf
      have hsplit := cut_eq_split 61 l
      by_cases hk : l.takeWhile (fun b => b != 61) = []
      · simp [Capability.Parse, hce, hsplit, hk, hf, hmem]
      · by_cases hv : (List.dropWhile (fun b => b != 61) l).tail = []
        · have hv1 : (List.dropWhile (fun b => b != 61) l).length - 1 = 0 := by
            rw [← List.length_tail, hv]
            rfl
          simp [Capability.Parse, hce, hsplit, hk, hv, hv1, hf, hmem]
        · have hv1 : ¬(List.dropWhile (fun b => b != 61) l).length - 1 = 0 := by
            rw [← List.length_tail, List.length_eq_zero]
            exact hv
          simp [Capability.Parse, hce, hsplit, hk, hv, hv1, hf, hmem]
    · have hne : 61 ∉ l := by simpa using hf
      cases l with
      | nil => simp [Capability.Parse, show cutEnd (str "\n") [10] = some [] from rfl, cut]
      | cons b rest =>
        have hce2 : cutEnd (str "\n") (b :: (rest ++ [10])) = some (b :: rest) := by
          rw [← List.cons_append]
          exact hce
        have hne2 : ¬(61 = b ∨ 61 ∈ rest) := by simpa using hne
        have hb : ¬b = 61 := fun hh => hne (by simp [hh])
        simp [Capability.Parse, hce2, cut_not_mem 61 _ hne, hne2, hb]
  · intro l
    by_cases hf : l.contains 32
    · have hmem : 32 ∈ l := by simpa using hf
      have hsplit := cut_eq_split 32 l
      by_cases hk : l.takeWhile (fun b => b != 32) = []
      · simp [CommandArgument.Parse, hsplit, hk, hf, hmem]
      · by_cases hv : (List.dropWhile (fun b => b != 32) l).tail = []
        · have hv1 : (List.dropWhile (fun b => b != 32) l).length - 1 = 0 := by
            rw [← List.length_tail, hv]
            rfl
          simp [CommandArgument.Parse, hsplit, hk, hv, hv1, hf, hmem]
        · have hv1 : ¬(List.dropWhile (fun b => b != 32) l).length - 1 = 0 := by
            rw [← List.length_tail, List.length_eq_zero]
            exact hv
          simp [CommandArgument.Parse, hsplit, hk, hv, hv1, hf, hmem]
    · have hne : 32 ∉ l := by simpa using hf
      cases l with
      | nil => simp [CommandArgument.Parse, cut]
      | cons b rest =>
        have hne2 : ¬(32 = b ∨ 32 ∈ rest) := by simpa using hne
        have hb : ¬b = 32 := fun hh => hne (by simp [hh])
        simp [CommandArgument.Parse, cut_not_mem 32 _ hne, hne2, hb]

/-- C7: a reference line whose attribute sequence contains an empty token —
rendered as two adjacent spaces at that position — parses successfully, and
the empty-string attribute is preserved at its position in order. -/
theorem C7_empty_attribute (id name : List Nat) (pre post : List (List Nat))
    (hid : 32 ∉ id) (hname : 32 ∉ name) (hpre : ∀ a ∈ pre, 32 ∉ a)
    (hpost : ∀ a ∈ post, 32 ∉ a) :
    Reference.Parse (Reference.line ⟨id, name, pre ++ [[]] ++ post⟩) =
      .ok ⟨id, name, pre ++ [[]] ++ post⟩ := by
  apply referenceParse_line
  refine ⟨hid, hname, ?_⟩
  intro a ha
  simp at ha
  rcases ha with ha | rfl | ha
  · exact hpre a ha
  · simp
  · exact hpost a ha

/-- Witness for C7: the line `oid nm x  y` (two adjacent spaces before `y`)
parses with the empty attribute preserved between `x` and `y`. -/
theorem C7_empty_attribute_witness :
    Reference.line ⟨str "oid", str "nm", [str "x"] ++ [[]] ++ [str "y"]⟩ =
      str "oid nm x  y\n" ∧
    Reference.Parse (Reference.line ⟨str "oid", str "nm", [str "x"] ++ [[]] ++ [str "y"]⟩) =
      .ok ⟨str "oid", str "nm", [str "x"] ++ [[]] ++ [str "y"]⟩ :=
  ⟨by decide,
    C7_empty_attribute (str "oid") (str "nm") [str "x"] [str "y"] (by decide) (by decide)
      (by decide) (by decide)⟩

/-- C8: a line-feed-terminated reference line carrying only an object id and
the field separator — that is, with an empty name and no attributes — parses
without error, yielding the object id with an empty name. -/
theorem C8_empty_name (id : List Nat) (h : 32 ∉ id) :
    Reference.Parse (id ++ [32, 10]) = .ok ⟨id, [], []⟩ := by
  have hce : cutEnd (str "\n") (id ++ [32, 10]) = some (id ++ [32]) := by
    rw [show id ++ [32, 10] = (id ++ [32]) ++ str "\n" by
      simp [List.append_assoc, show str "\n" = [10] from rfl], cutEnd_append]
  have hcut : cut 32 (id ++ [32]) = (id, [], true) := cut_append 32 id [] h
  simp [Reference.Parse, hce, hcut, cut, Reference.parseAttrs]

/-- Witness for C8 at a concrete object id. -/
theorem C8_empty_name_witness :
    Reference.Parse (str "8f3e21" ++ [32, 10]) = .ok ⟨str "8f3e21", [], []⟩ :=
  C8_empty_name (str "8f3e21") (by decide)

/-- C9: during acknowledgements decoding every line that is not an `ACK `
line, not exactly `NAK`, and not exactly `ready` is skipped silently — the
fields are unchanged and scanning continues with no error — whereas
`ShallowInfo.Parse` returns a malformed-section error on any line carrying
neither the `shallow ` nor the `unshallow ` marker. -/
theorem C9_skip_versus_reject :
    (∀ (a : Acknowledgements) (l : List Nat) (rest : List Pkt),
      (str "ACK ").isPrefixOf l = false → l ≠ str "NAK\n" → l ≠ str "ready\n" →
      Acknowledgements.Parse a (.data l :: rest) = Acknowledgements.Parse a rest) ∧
    (∀ (si : ShallowInfo) (l : List Nat) (rest : List Pkt),
      (str "shallow ").isPrefixOf l = false → (str "unshallow ").isPrefixOf l = false →
      ShallowInfo.Parse si (.data l :: rest) = (si, .invalidShallowInfo l, rest)) := by
  constructor
  · intro a l rest h1 h2 h3
    rw [Acknowledgements.Parse]
    simp [cutStart, h1, h2, h3]
  · intro si l rest h1 h2
    rw [ShallowInfo.Parse]
    simp [h1, h2]

/-- Witness for C9 at the unrecognized line `bogus`. -/
theorem C9_skip_versus_reject_witness :
    Acknowledgements.Parse ⟨false, false, []⟩ [.data (str "bogus\n"), .flush] =
      Acknowledgements.Parse ⟨false, false, []⟩ [.flush] ∧
    ShallowInfo.Parse ⟨[], []⟩ [.data (str "bogus\n"), .flush] =
      (⟨[], []⟩, .invalidShallowInfo (str "bogus\n"), [.flush]) :=
  ⟨C9_skip_versus_reject.1 ⟨false, false, []⟩ (str "bogus\n") [.flush] (by decide)
      (by decide) (by decide),
    C9_skip_versus_reject.2 ⟨[], []⟩ (str "bogus\n") [.flush] (by decide) (by decide)⟩

theorem flush_not_mem_acksTokens (a : Acknowledgements) : Pkt.flush ∉ a.tokens := by
  by_cases hr : a.Ready <;> by_cases hn : a.NAK <;>
    simp [Acknowledgements.tokens, hr, hn]

theorem flush_not_mem_shallowTokens (si : ShallowInfo) : Pkt.flush ∉ si.tokens := by
  simp [ShallowInfo.tokens]

theorem flush_not_mem_wantedTokens (wrs : WantedRefs) :
    Pkt.flush ∉ WantedRefs.tokens wrs := by
  simp [WantedRefs.tokens]

theorem flush_not_mem_urisTokens (pus : PackfileURIs) :
    Pkt.flush ∉ PackfileURIs.tokens pus := by
  simp [PackfileURIs.tokens]

/-- C10: a fetch response without NAK encodes as its sections followed by the
`packfile` header unit and nothing more: the emitted unit sequence ends at the
packfile header (so the byte output ends with that framed header line), and it
contains no flush marker and no side-band body units — termination of the
message is left to the caller. -/
theorem C10_non_nak_open_ended (fr : FetchResponse) (b : List Nat)
    (h : fr.Acknowledgements.NAK = false) :
    fr.Append b = b ++ renderPkts fr.tokens ∧
    (∃ ts, fr.tokens = ts ++ [Pkt.data (str "packfile\n")]) ∧
    Pkt.flush ∉ fr.tokens ∧
    (∃ p, fr.Append b = p ++ str "000dpackfile\n") := by
  have htok : fr.Append b = b ++ renderPkts fr.tokens := fetchAppend_eq fr b
  have hshape : ∃ ts, fr.tokens = ts ++ [Pkt.data (str "packfile\n")] := by
    unfold FetchResponse.tokens
    rw [if_neg (by simp [h])]
    exact ⟨(if !fr.Acknowledgements.IsZero then
        fr.Acknowledgements.tokens ++ [Pkt.delim] else []) ++
      (if !fr.ShallowInfo.IsZero then fr.ShallowInfo.tokens else []) ++
      (if !(WantedRefs.IsZero fr.WantedRefs) then WantedRefs.tokens fr.WantedRefs
        else []) ++
      (if !(PackfileURIs.IsZero fr.PackfileURIs) then
        PackfileURIs.tokens fr.PackfileURIs else []), by simp [List.append_assoc]⟩
  have hflush : Pkt.flush ∉ fr.tokens := by
    unfold FetchResponse.tokens
    rw [if_neg (by simp [h])]
    by_cases hz : fr.Acknowledgements.IsZero <;>
      by_cases hsi : fr.ShallowInfo.IsZero <;>
      by_cases hwr : WantedRefs.IsZero fr.WantedRefs <;>
      by_cases hpu : PackfileURIs.IsZero fr.PackfileURIs <;>
      simp [hz, hsi, hwr, hpu, flush_not_mem_acksTokens, flush_not_mem_shallowTokens,
        flush_not_mem_wantedTokens, flush_not_mem_urisTokens]
  refine ⟨htok, hshape, hflush, ?_⟩
  obtain ⟨ts, hts⟩ := hshape
  refine ⟨b ++ renderPkts ts, ?_⟩
  rw [htok, hts, renderPkts_append]
  simp [renderPkts, List.append_assoc]
  rfl

/-- Witness for C10 at a fetch response with acknowledgements (no NAK) and a
shallow-info section. -/
theorem C10_non_nak_open_ended_witness :
    (⟨⟨true, false, [str "aa"]⟩, ⟨[⟨str "s"⟩], []⟩, [], []⟩ :
        FetchResponse).Acknowledgements.NAK = false ∧
    (FetchResponse.Append ⟨⟨true, false, [str "aa"]⟩, ⟨[⟨str "s"⟩], []⟩, [], []⟩ [] =
        [] ++ renderPkts (FetchResponse.tokens
          ⟨⟨true, false, [str "aa"]⟩, ⟨[⟨str "s"⟩], []⟩, [], []⟩) ∧
      (∃ ts, FetchResponse.tokens
          ⟨⟨true, false, [str "aa"]⟩, ⟨[⟨str "s"⟩], []⟩, [], []⟩ =
        ts ++ [Pkt.data (str "packfile\n")]) ∧
      Pkt.flush ∉ FetchResponse.tokens
        ⟨⟨true, false, [str "aa"]⟩, ⟨[⟨str "s"⟩], []⟩, [], []⟩ ∧
      (∃ p, FetchResponse.Append
          ⟨⟨true, false, [str "aa"]⟩, ⟨[⟨str "s"⟩], []⟩, [], []⟩ [] =
        p ++ str "000dpackfile\n")) :=
  ⟨rfl, C10_non_nak_open_ended ⟨⟨true, false, [str "aa"]⟩, ⟨[⟨str "s"⟩], []⟩, [], []⟩ [] rfl⟩
